import Mathlib

/-!
Verification of the TFG-Matcher search core (`src/search/search_engine.py`,
`src/utils/text_utils.py`, and the compatibility scorer in `app.py`).

Strings are modelled as Lean `String`/`List Char`; Python floats as `ℚ`;
metadata dictionaries as structures with `Option String` fields (`none` for a
missing key, `some ""` for a key present with an empty value — Python treats
both as falsy under `metadata.get(key)`).

`Rat.inv` is `@[irreducible]` in core, which blocks `decide` on concrete
rational arithmetic; the theorems that evaluate the model on concrete
rationals sit in sections making the rational primitives locally
semireducible (this affects elaboration only — the kernel ignores
reducibility attributes).
-/

/-- Python `str` whitespace test (`\s`), faithful on the ASCII range used in
this development. -/
def pyIsSpaceChar (c : Char) : Bool :=
  c = ' ' || c = '\t' || c = '\n' || c = '\r' || c = '\x0b' || c = '\x0c'

/-- Python regex word-character test `\w`: alphanumeric or underscore
(faithful on the ASCII range). -/
def pyIsWordChar (c : Char) : Bool :=
  c.isAlphanum || c = '_'

/-- Python `str.lower`, character-wise: maps the ASCII uppercase letters and
the uppercase accented letters used in this development to their lowercase
forms, and fixes every character with no lowercase mapping (such as digits,
punctuation, or U+213B which has none in Unicode). -/
def pyLower (c : Char) : Char :=
  match c with
  | 'A' => 'a' | 'B' => 'b' | 'C' => 'c' | 'D' => 'd' | 'E' => 'e'
  | 'F' => 'f' | 'G' => 'g' | 'H' => 'h' | 'I' => 'i' | 'J' => 'j'
  | 'K' => 'k' | 'L' => 'l' | 'M' => 'm' | 'N' => 'n' | 'O' => 'o'
  | 'P' => 'p' | 'Q' => 'q' | 'R' => 'r' | 'S' => 's' | 'T' => 't'
  | 'U' => 'u' | 'V' => 'v' | 'W' => 'w' | 'X' => 'x' | 'Y' => 'y'
  | 'Z' => 'z'
  | 'Á' => 'á' | 'É' => 'é' | 'Í' => 'í' | 'Ó' => 'ó' | 'Ú' => 'ú'
  | 'Ñ' => 'ñ'
  | _ => c

/-- The combining marks (Unicode category M) appearing in the NFKD table
below; `unicodedata.combining` is nonzero exactly on these. -/
def combiningMarks : List Char :=
  ['\u0301', '\u0303']

/-- `unicodedata.combining(c) != 0`, faithful on the characters of this
development (ASCII characters are never combining marks). -/
def pyCombining (c : Char) : Bool :=
  combiningMarks.contains c

/-- `unicodedata.normalize('NFKD', c)` character-wise: identity on ASCII and
on any character with no decomposition; the table covers the non-ASCII
characters used in this development, with their real Unicode decompositions
(U+213B FACSIMILE SIGN has compatibility decomposition "FAX"). -/
def pyNFKD (c : Char) : List Char :=
  if c = 'á' then ['a', '\u0301'] else
  if c = 'é' then ['e', '\u0301'] else
  if c = 'í' then ['i', '\u0301'] else
  if c = 'ó' then ['o', '\u0301'] else
  if c = 'ú' then ['u', '\u0301'] else
  if c = 'ñ' then ['n', '\u0303'] else
  if c = '℻' then ['F', 'A', 'X'] else
  [c]

/-- One pass of `re.sub(r'\s+', ' ', text)`: the flag records whether the
previous character was whitespace (a run already opened). -/
def collapseGo : Bool → List Char → List Char
  | _, [] => []
  | prevSpace, c :: rest =>
    if pyIsSpaceChar c then
      if prevSpace then collapseGo true rest
      else ' ' :: collapseGo true rest
    else c :: collapseGo false rest

/-- `re.sub(r'\s+', ' ', text)` on a character list. -/
def collapseSpaces (l : List Char) : List Char :=
  collapseGo false l

/-- Python `str.strip()`: drop leading and trailing whitespace. -/
def stripChars (l : List Char) : List Char :=
  ((l.dropWhile pyIsSpaceChar).reverse.dropWhile pyIsSpaceChar).reverse

/-- `normalize_text` from `src/utils/text_utils.py`, on the characters of the
input string: lower-case; NFKD decomposition and removal of combining marks;
replace every character matching `[^\w\s]` by a single space; collapse
whitespace runs; strip.  (The Python guard returning `""` for `None`/non-str
input is outside the `String` type; the empty string maps to the empty
string.) -/
def normalize_text (s : List Char) : List Char :=
  let t1 := s.map pyLower
  let t2 := (t1.flatMap pyNFKD).filter (fun c => !pyCombining c)
  let t3 := t2.map (fun c => if pyIsWordChar c || pyIsSpaceChar c then c else ' ')
  stripChars (collapseSpaces t3)

/-- Value of a digit string (most significant first). -/
def digitsVal (l : List Char) : ℕ :=
  l.foldl (fun n c => 10 * n + (c.toNat - 48)) 0

/-- Python `float(s)` as a rational: optional surrounding whitespace, optional
sign, digits with an optional fractional part, optional exponent.  `none`
models `ValueError`.  (Infinities, NaN and underscore digit separators are
outside this model.) -/
def pyFloat (s : String) : Option ℚ :=
  let cs0 := ((s.data.dropWhile pyIsSpaceChar).reverse.dropWhile pyIsSpaceChar).reverse
  let signAndRest : ℚ × List Char :=
    match cs0 with
    | '+' :: t => (1, t)
    | '-' :: t => (-1, t)
    | t => (1, t)
  let sign := signAndRest.1
  let cs := signAndRest.2
  let ip := cs.takeWhile Char.isDigit
  let cs1 := cs.dropWhile Char.isDigit
  let fracAndRest : List Char × List Char :=
    match cs1 with
    | '.' :: t => (t.takeWhile Char.isDigit, t.dropWhile Char.isDigit)
    | t => ([], t)
  let fp := fracAndRest.1
  let cs2 := fracAndRest.2
  if ip.isEmpty && fp.isEmpty then none
  else
    let mant : ℚ := (digitsVal ip : ℚ) + (digitsVal fp : ℚ) / (10 : ℚ) ^ fp.length
    match cs2 with
    | [] => some (sign * mant)
    | e :: t =>
      if e = 'e' || e = 'E' then
        let esignAndRest : ℤ × List Char :=
          match t with
          | '+' :: u => (1, u)
          | '-' :: u => (-1, u)
          | u => (1, u)
        let ed := esignAndRest.2.takeWhile Char.isDigit
        let rest := esignAndRest.2.dropWhile Char.isDigit
        if ed.isEmpty || !rest.isEmpty then none
        else some (sign * mant * (10 : ℚ) ^ (esignAndRest.1 * (digitsVal ed : ℤ)))
      else none

/-- Python `int(s)` (base 10): optional surrounding whitespace, optional sign,
one or more digits and nothing else.  `none` models `ValueError`. -/
def pyInt (s : String) : Option ℤ :=
  let cs0 := ((s.data.dropWhile pyIsSpaceChar).reverse.dropWhile pyIsSpaceChar).reverse
  let signAndRest : ℤ × List Char :=
    match cs0 with
    | '+' :: t => (1, t)
    | '-' :: t => (-1, t)
    | t => (1, t)
  let ds := signAndRest.2
  if ds.isEmpty || !ds.all Char.isDigit then none
  else some (signAndRest.1 * (digitsVal ds : ℤ))

/-- Python `round(q, n)`: round half to even at `n` decimal digits (floats are
modelled as exact rationals). -/
def pyRound (q : ℚ) (n : ℕ) : ℚ :=
  let m : ℚ := (10 : ℚ) ^ n
  let f : ℤ := ⌊q * m⌋
  let r : ℚ := q * m - (f : ℚ)
  if r < 1 / 2 then (f : ℚ) / m
  else if 1 / 2 < r then ((f : ℚ) + 1) / m
  else if f % 2 = 0 then (f : ℚ) / m else ((f : ℚ) + 1) / m

/-- Insert `a` into `l` before the first element of strictly smaller key:
one step of a stable insertion sort, descending by `k`. -/
def insertKD {α β : Type} [LinearOrder β] (k : α → β) (a : α) : List α → List α
  | [] => [a]
  | b :: l => if k b < k a then a :: b :: l else b :: insertKD k a l

/-- Stable sort, descending by the key `k`: the result of Python
`sorted(l, key=k, reverse=True)` / `l.sort(key=k, reverse=True)`. -/
def sortKD {α β : Type} [LinearOrder β] (k : α → β) (l : List α) : List α :=
  l.foldl (fun acc x => insertKD k x acc) []

/-- Truthiness of an optional string field: `False` for a missing key and for
the empty string, as in Python. -/
def truthy (o : Option String) : Bool :=
  o.getD "" ≠ ""

/-- A publication record's metadata (`src/search/search_engine.py`, constants
`KEY_*` plus the extra keys read with `metadata.get`). `none` models a missing
key. -/
structure Metadata where
  profesor : Option String := none
  profesor_username : Option String := none
  titulo : Option String := none
  tipo : Option String := none
  tipo_produccion : Option String := none
  fecha : Option String := none
  categorias : Option String := none
  fuente : Option String := none
  if_sjr : Option String := none
  q_sjr : Option String := none
deriving DecidableEq

/-- One raw candidate returned by `collection.query`: the `i`-th entries of
the parallel arrays `ids[0]`, `metadatas[0]`, `documents[0]`,
`distances[0]`. -/
structure Candidate where
  id : String
  metadata : Metadata
  document : String
  distance : ℚ
deriving DecidableEq

/-- The `fecha_range` filter value: `filters["fecha_range"].get("inicio")` and
`.get("fin")`. -/
structure DateRange where
  inicio : Option String := none
  fin : Option String := none
deriving DecidableEq

/-- The filters dictionary passed to `search`; only the keys the engine
reads. -/
structure Filters where
  profesor : Option String := none
  tipo_produccion : Option String := none
  q_sjr : Option String := none
  fecha_range : Option DateRange := none
  min_if_sjr : Option ℚ := none
deriving DecidableEq

/-- `SearchEngine._passes_post_filters`: the date-range check runs only when
`metadata.get("fecha")` is truthy; the minimum-impact-factor check runs only
when `metadata.get("if_sjr")` is truthy, and a `float` parse failure there
returns `False`. -/
def passesPostFilters (m : Metadata) (f : Filters) : Bool :=
  let fecha := m.fecha.getD ""
  let dateFail :=
    match f.fecha_range with
    | none => false
    | some r =>
      if truthy m.fecha then
        (match r.inicio with
         | some i => i ≠ "" && decide (fecha < i)
         | none => false) ||
        (match r.fin with
         | some e => e ≠ "" && decide (e < fecha)
         | none => false)
      else false
  if dateFail then false
  else
    match f.min_if_sjr with
    | none => true
    | some minIF =>
      if truthy m.if_sjr then
        match pyFloat (m.if_sjr.getD "") with
        | some v => decide (minIF ≤ v)
        | none => false
      else true

/-- One processed search result, as appended by
`SearchEngine._process_search_results`. -/
structure ResultEntry where
  id : String
  relevance_score : ℚ
  distance : ℚ
  content : String
  metadata : Metadata
  profesor : String
  titulo : String
  tipo : String
  tipo_produccion : String
  fecha : String
  categorias : String
  fuente : String
  if_sjr : String
  q_sjr : String
deriving DecidableEq

/-- The dictionary `_process_search_results` builds for one candidate:
`relevance_score = max(0, 1 - distance)` rounded to 3 decimals, rounded
distance, and the metadata fields flattened with their defaults. -/
def mkEntry (c : Candidate) : ResultEntry :=
  let relevance_score : ℚ := max 0 (1 - c.distance)
  { id := c.id
    relevance_score := pyRound relevance_score 3
    distance := pyRound c.distance 3
    content := c.document
    metadata := c.metadata
    profesor := c.metadata.profesor.getD "Unknown"
    titulo := c.metadata.titulo.getD ""
    tipo := c.metadata.tipo.getD ""
    tipo_produccion := c.metadata.tipo_produccion.getD ""
    fecha := c.metadata.fecha.getD ""
    categorias := c.metadata.categorias.getD ""
    fuente := c.metadata.fuente.getD ""
    if_sjr := c.metadata.if_sjr.getD ""
    q_sjr := c.metadata.q_sjr.getD "" }

/-- `SearchEngine._process_search_results`: keep the candidates passing the
post-filters (a falsy `filters` — `None` or the empty dict — skips the check;
an empty dict would pass every record anyway), build an entry for each, and
sort descending by `relevance_score`. -/
def processSearchResults (cands : List Candidate) (filters : Option Filters) :
    List ResultEntry :=
  let results := cands.filterMap (fun c =>
    match filters with
    | some f => if passesPostFilters c.metadata f then some (mkEntry c) else none
    | none => some (mkEntry c))
  sortKD (fun r => r.relevance_score) results

/-- Tokens of Python `str.split()`: maximal runs of non-whitespace. `cur`
holds the characters of the open token, reversed. -/
def splitWsGo : List Char → List Char → List (List Char)
  | cur, [] => if cur.isEmpty then [] else [cur.reverse]
  | cur, c :: rest =>
    if pyIsSpaceChar c then
      if cur.isEmpty then splitWsGo [] rest else cur.reverse :: splitWsGo [] rest
    else splitWsGo (c :: cur) rest

/-- Python `s.split()` (no separator argument). -/
def splitWs (s : List Char) : List (List Char) :=
  splitWsGo [] s

/-- `s.lower()` on a whole string. -/
def lowerStr (s : String) : String :=
  String.mk (s.data.map pyLower)

/-- Whether `needle` begins `hay`. -/
def startsWithL : List Char → List Char → Bool
  | [], _ => true
  | _ :: _, [] => false
  | a :: as, b :: bs => a = b && startsWithL as bs

/-- Python substring test `needle in hay`. -/
def containsSub (needle : List Char) : List Char → Bool
  | [] => needle.isEmpty
  | c :: rest => startsWithL needle (c :: rest) || containsSub needle rest

/-- `any(word in target for word in field.split() if len(word) > 3)` where
`field` and `target` are already lower-cased. -/
def anyLongTokenIn (field target : String) : Bool :=
  ((splitWs field.data).filter (fun w => 3 < w.length)).any
    (fun w => containsSub w target.data)

/-- The two profile fields `calculate_compatibility_score` reads
(`profile.get("interests")`, `profile.get("preferred_areas")`). -/
structure UserProfile where
  interests : Option String := none
  preferred_areas : Option String := none
deriving DecidableEq

/-- `calculate_compatibility_score` from `app.py`: 0.4 × relevance, +0.3 on an
interests keyword overlap, +0.2 on a preferred-areas keyword overlap,
+min(if_sjr / 10, 0.1) when the impact factor parses, capped at 1.0. -/
def calculate_compatibility_score (result : ResultEntry) (profile : UserProfile) : ℚ :=
  let score0 := result.relevance_score * (4 / 10)
  let score1 :=
    if truthy profile.interests && result.categorias ≠ "" then
      if anyLongTokenIn (lowerStr (profile.interests.getD ""))
          (lowerStr result.categorias) then score0 + 3 / 10 else score0
    else score0
  let score2 :=
    if truthy profile.preferred_areas && result.categorias ≠ "" then
      if anyLongTokenIn (lowerStr (profile.preferred_areas.getD ""))
          (lowerStr result.categorias) then score1 + 2 / 10 else score1
    else score1
  let score3 :=
    if result.if_sjr ≠ "" then
      match pyFloat result.if_sjr with
      | some v => score2 + min (v / 10) (1 / 10)
      | none => score2
    else score2
  min score3 1

/-- One document of the corpus as `collection.get` returns it: parallel
`ids`/`metadatas`/`documents` entries. -/
structure Doc where
  id : String
  metadata : Metadata
  document : String
deriving DecidableEq

/-- Increment a key of an insertion-ordered counter dictionary
(`d[k] = d.get(k, 0) + 1`). -/
def bumpCount (l : List (String × ℕ)) (k : String) : List (String × ℕ) :=
  match l with
  | [] => [(k, 1)]
  | (k0, n) :: rest =>
    if k0 = k then (k0, n + 1) :: rest else (k0, n) :: bumpCount rest k

/-- `s.add(x)` on a set modelled as an insertion-ordered duplicate-free
list. -/
def addSetStr (l : List String) (s : String) : List String :=
  if s ∈ l then l else l ++ [s]

/-- The global statistics dictionary built by
`SearchEngine.get_database_stats` (`años` is written `anios`: `ñ` is not a
Lean identifier character). -/
structure Stats where
  total_documents : ℕ
  total_profesores : ℕ
  tipos_produccion : List (String × ℕ)
  anios_cubiertos : List String
  anios_publicacion : List (String × ℕ)
  categorias_populares : List (String × ℕ)
deriving DecidableEq

/-- The `empty_stats` dictionary returned for a corpus with no records. -/
def emptyStats : Stats :=
  { total_documents := 0
    total_profesores := 0
    tipos_produccion := []
    anios_cubiertos := []
    anios_publicacion := []
    categorias_populares := [] }

/-- Accumulators of the scan loop in `get_database_stats`. -/
structure StatsAcc where
  tipos : List (String × ℕ)
  anios : List String
  aniosPub : List (String × ℕ)
  categorias : List (String × ℕ)
  profesores : List String

/-- One iteration of the scan loop in `get_database_stats`.  The year is
`metadata["fecha"][:4]`; the `try/except (IndexError, TypeError)` around it
never fires, since slicing a string cannot raise. -/
def statsStep (acc : StatsAcc) (m : Metadata) : StatsAcc :=
  let acc := { acc with tipos := bumpCount acc.tipos (m.tipo_produccion.getD "Unknown") }
  let acc :=
    if truthy m.fecha then
      let y := (m.fecha.getD "").take 4
      { acc with anios := addSetStr acc.anios y, aniosPub := bumpCount acc.aniosPub y }
    else acc
  let acc := { acc with categorias := bumpCount acc.categorias (m.categorias.getD "Unknown") }
  if truthy m.profesor then
    { acc with profesores := addSetStr acc.profesores (m.profesor.getD "") }
  else acc

/-- The full-corpus recomputation inside `get_database_stats`: the
empty-corpus branch returns `empty_stats`, the scan branch aggregates and
sorts (type and category histograms descending by count, years descending). -/
def computeStats (corpus : List Metadata) : Stats :=
  if corpus.isEmpty then emptyStats
  else
    let acc := corpus.foldl statsStep ⟨[], [], [], [], []⟩
    { total_documents := corpus.length
      total_profesores := acc.profesores.length
      tipos_produccion := sortKD (fun p => p.2) acc.tipos
      anios_cubiertos := sortKD (fun s => s) acc.anios
      anios_publicacion := sortKD (fun p => p.1) acc.aniosPub
      categorias_populares := (sortKD (fun p => p.2) acc.categorias).take 10 }

/-- The engine's cache slot: `_stats_cache` (`None` before the first scan,
afterwards always a non-empty — hence truthy — dictionary) and
`_stats_cache_time`. -/
structure StatsCacheState where
  cache : Option Stats
  time : ℚ
deriving DecidableEq

/-- `SearchEngine.get_database_stats` with the clock and corpus explicit:
return the cached value when it exists and is younger than
`STATS_CACHE_TTL = 300` seconds; otherwise recompute, cache with the current
timestamp, and return. -/
def get_database_stats (now : ℚ) (corpus : List Metadata) (st : StatsCacheState) :
    Stats × StatsCacheState :=
  match st.cache with
  | some s =>
    if now - st.time < 300 then (s, st)
    else (computeStats corpus, ⟨some (computeStats corpus), now⟩)
  | none => (computeStats corpus, ⟨some (computeStats corpus), now⟩)

/-- The work dictionary `get_profesor_profile` builds per record. -/
structure Work where
  id : String
  titulo : String
  tipo : String
  tipo_produccion : String
  fecha : String
  categorias : String
  fuente : String
  if_sjr : String
  q_sjr : String
  content : String
deriving DecidableEq

/-- The per-record work dictionary, fields defaulted to `""`. -/
def mkWork (d : Doc) : Work :=
  { id := d.id
    titulo := d.metadata.titulo.getD ""
    tipo := d.metadata.tipo.getD ""
    tipo_produccion := d.metadata.tipo_produccion.getD ""
    fecha := d.metadata.fecha.getD ""
    categorias := d.metadata.categorias.getD ""
    fuente := d.metadata.fuente.getD ""
    if_sjr := d.metadata.if_sjr.getD ""
    q_sjr := d.metadata.q_sjr.getD ""
    content := d.document }

/-- A `datetime` date as the number `y*10000 + m*100 + d`, which orders dates
chronologically. -/
def dateNum (y m d : ℕ) : ℕ :=
  y * 10000 + m * 100 + d

/-- `datetime.min`: year 1, month 1, day 1. -/
def minDateKey : ℕ :=
  dateNum 1 1 1

/-- A `strptime` numeric field: non-empty, all digits, at most `maxLen`
digits. -/
def numField (s : String) (maxLen : ℕ) : Option ℕ :=
  if s ≠ "" && s.length ≤ maxLen && s.data.all Char.isDigit then
    some (digitsVal s.data)
  else none

/-- `%Y`: up to four digits, year at least 1. -/
def parseY (s : String) : Option ℕ :=
  match numField s 4 with
  | some y => if 1 ≤ y then some y else none
  | none => none

/-- `%m`: up to two digits, 1..12. -/
def parseM (s : String) : Option ℕ :=
  match numField s 2 with
  | some m => if 1 ≤ m && m ≤ 12 then some m else none
  | none => none

/-- `%d`: up to two digits, 1..31 (the per-month upper bound `strptime`
enforces is approximated by 31; the difference only affects which impossible
dates fall back to `datetime.min`). -/
def parseD (s : String) : Option ℕ :=
  match numField s 2 with
  | some d => if 1 ≤ d && d ≤ 31 then some d else none
  | none => none

/-- `strptime` with format `%Y<sep>%m<sep>%d`. -/
def tryYMD (sep : String) (s : String) : Option ℕ :=
  match s.splitOn sep with
  | [ys, ms, ds] =>
    match parseY ys, parseM ms, parseD ds with
    | some y, some m, some d => some (dateNum y m d)
    | _, _, _ => none
  | _ => none

/-- `strptime` with format `%d<sep>%m<sep>%Y`. -/
def tryDMY (sep : String) (s : String) : Option ℕ :=
  match s.splitOn sep with
  | [ds, ms, ys] =>
    match parseY ys, parseM ms, parseD ds with
    | some y, some m, some d => some (dateNum y m d)
    | _, _, _ => none
  | _ => none

/-- `strptime` with format `%Y-%m` (day defaults to 1). -/
def tryYM (s : String) : Option ℕ :=
  match s.splitOn "-" with
  | [ys, ms] =>
    match parseY ys, parseM ms with
    | some y, some m => some (dateNum y m 1)
    | _, _ => none
  | _ => none

/-- `strptime` with format `%Y` (month and day default to 1). -/
def tryY (s : String) : Option ℕ :=
  match parseY s with
  | some y => some (dateNum y 1 1)
  | none => none

/-- `SearchEngine._safe_parse_date`, as the order key of the parsed date:
sentinel and unparseable inputs give `datetime.min`, and the formats are
tried in the source's order. -/
def safeParseDateKey (fecha : String) : ℕ :=
  if fecha = "" || fecha = "-" || fecha = "N/A" || fecha = "n/a" then minDateKey
  else
    match tryYMD "-" fecha with
    | some k => k
    | none =>
      match tryYMD "/" fecha with
      | some k => k
      | none =>
        match tryDMY "-" fecha with
        | some k => k
        | none =>
          match tryDMY "/" fecha with
          | some k => k
          | none =>
            match tryYM fecha with
            | some k => k
            | none =>
              match tryY fecha with
              | some k => k
              | none => minDateKey

/-- Classification of a work by its production type, lower-cased: 0 when it
contains "docencia", 1 when it contains "proyecto", 2 otherwise. -/
def tipoClass (m : Metadata) : ℕ :=
  let tl := lowerStr (m.tipo_produccion.getD "Unknown")
  if containsSub "docencia".data tl.data then 0
  else if containsSub "proyecto".data tl.data then 1
  else 2

/-- The `estadisticas` dictionary of `get_profesor_profile` (`años_activo` is
written `anios_activo`). -/
structure Estadisticas where
  total_trabajos : ℕ
  tipos_produccion : List (String × ℕ)
  anios_activo : List String
  categorias : List String
  fuentes : List String
  trabajos_recientes : List Work
  docencia : List Work
  investigacion : List Work
  proyectos : List Work
deriving DecidableEq

/-- The profile `get_profesor_profile` returns when records exist. -/
structure ProfesorProfile where
  profesor : String
  works : List Work
  estadisticas : Estadisticas
deriving DecidableEq

/-- `SearchEngine.get_profesor_profile`: exact-match fetch, `None` when no
record matches; otherwise works plus statistics.  `años_activo` collects
`metadata["fecha"][:4]` for every record with a truthy `fecha` (the
`try/except (IndexError, TypeError)` around the slice never fires: slicing a
string cannot raise), then is sorted descending.  Works are sorted by
`_safe_parse_date` descending; `trabajos_recientes` is the first 10. -/
def get_profesor_profile (corpus : List Doc) (profesor_name : String) :
    Option ProfesorProfile :=
  let results := corpus.filter (fun d => d.metadata.profesor = some profesor_name)
  if results.isEmpty then none
  else
    let works0 := results.map mkWork
    let tipos := results.foldl
      (fun l d => bumpCount l (d.metadata.tipo_produccion.getD "Unknown")) []
    let anios := results.foldl
      (fun l d =>
        if truthy d.metadata.fecha then addSetStr l ((d.metadata.fecha.getD "").take 4)
        else l) []
    let categorias := results.foldl
      (fun l d =>
        if truthy d.metadata.categorias then addSetStr l (d.metadata.categorias.getD "")
        else l) []
    let fuentes := results.foldl
      (fun l d =>
        if truthy d.metadata.fuente then addSetStr l (d.metadata.fuente.getD "")
        else l) []
    let worksSorted := sortKD (fun w => safeParseDateKey w.fecha) works0
    some
      { profesor := profesor_name
        works := worksSorted
        estadisticas :=
          { total_trabajos := results.length
            tipos_produccion := tipos
            anios_activo := sortKD (fun s => s) anios
            categorias := categorias
            fuentes := fuentes
            trabajos_recientes := worksSorted.take 10
            docencia := (results.filter (fun d => tipoClass d.metadata = 0)).map mkWork
            investigacion := (results.filter (fun d => tipoClass d.metadata = 2)).map mkWork
            proyectos := (results.filter (fun d => tipoClass d.metadata = 1)).map mkWork } }

/-- Per-professor accumulator of `get_availability_ranking`. -/
structure ProfAgg where
  profesor : String
  total_publications : ℕ
  recent_publications : ℕ
  categories : List String
deriving DecidableEq

/-- Whether a record counts as recent: truthy `fecha` whose first four
characters parse with `int` to a year at most 3 below the current year
(future years always count, as in the source's `current_year - year <= 3`). -/
def isRecentFecha (currentYear : ℤ) (fecha : String) : Bool :=
  fecha ≠ "" &&
    (match pyInt (fecha.take 4) with
     | some y => decide (currentYear - y ≤ 3)
     | none => false)

/-- Record one metadata row for its professor, in the insertion-ordered
professor dictionary of `get_availability_ranking`. -/
def bumpProf (currentYear : ℤ) (m : Metadata) : List ProfAgg → List ProfAgg
  | [] =>
    [{ profesor := m.profesor.getD ""
       total_publications := 1
       recent_publications := if isRecentFecha currentYear (m.fecha.getD "") then 1 else 0
       categories := if truthy m.categorias then [m.categorias.getD ""] else [] }]
  | p :: rest =>
    if p.profesor = m.profesor.getD "" then
      { p with
        total_publications := p.total_publications + 1
        recent_publications :=
          p.recent_publications + (if isRecentFecha currentYear (m.fecha.getD "") then 1 else 0)
        categories :=
          if truthy m.categorias then addSetStr p.categories (m.categorias.getD "")
          else p.categories } :: rest
    else p :: bumpProf currentYear m rest

/-- The professor dictionary after the scan loop of
`get_availability_ranking` (rows with a falsy `profesor` are skipped). -/
def buildProfessors (currentYear : ℤ) (corpus : List Metadata) : List ProfAgg :=
  corpus.foldl (fun l m => if truthy m.profesor then bumpProf currentYear m l else l) []

/-- `max_recent = max((p["recent_publications"] ...), default=1) or 1`: the
maximum recent count, floored at 1 (also when the dictionary is empty). -/
def maxRecentOf (profs : List ProfAgg) : ℕ :=
  let m := (profs.map (fun p => p.recent_publications)).foldl max 0
  if m = 0 then 1 else m

/-- One row of the availability ranking. -/
structure AvailEntry where
  profesor : String
  total_publications : ℕ
  recent_publications : ℕ
  categories : List String
  availability_score : ℚ
  availability_label : String
deriving DecidableEq

/-- One ranking entry: `load = recent / max_recent`,
`availability_score = round(1.0 - load*0.7, 2)`, label by the 0.7/0.4
thresholds. -/
def mkAvailEntry (maxRecent : ℕ) (p : ProfAgg) : AvailEntry :=
  let load : ℚ := (p.recent_publications : ℚ) / (maxRecent : ℚ)
  let score := pyRound (1 - load * (7 / 10)) 2
  { profesor := p.profesor
    total_publications := p.total_publications
    recent_publications := p.recent_publications
    categories := p.categories
    availability_score := score
    availability_label :=
      if 7 / 10 ≤ score then "Alta" else if 4 / 10 ≤ score then "Media" else "Baja" }

/-- `SearchEngine.get_availability_ranking` with the clock's year explicit:
aggregate per professor, score each, sort descending by
`availability_score`. -/
def get_availability_ranking (currentYear : ℤ) (corpus : List Metadata) :
    List AvailEntry :=
  let profs := buildProfessors currentYear corpus
  let ranking := profs.map (mkAvailEntry (maxRecentOf profs))
  sortKD (fun e => e.availability_score) ranking

/-- A 4-digit year string, as in the spec's description of `activeYears`. -/
def isYear4 (s : String) : Bool :=
  s.length = 4 && s.data.all Char.isDigit

theorem mem_insertKD {α β : Type} [LinearOrder β] (k : α → β) (a x : α)
    (l : List α) : x ∈ insertKD k a l ↔ x = a ∨ x ∈ l := by
  induction l with
  | nil => simp [insertKD]
  | cons b t ih =>
    by_cases h : k b < k a
    · simp [insertKD, h]
    · simp only [insertKD, if_neg h, List.mem_cons, ih]
      tauto

theorem mem_sortKD_aux {α β : Type} [LinearOrder β] (k : α → β) (x : α)
    (l acc : List α) :
    x ∈ l.foldl (fun acc y => insertKD k y acc) acc ↔ x ∈ acc ∨ x ∈ l := by
  induction l generalizing acc with
  | nil => simp
  | cons b t ih =>
    simp only [List.foldl_cons, ih, mem_insertKD, List.mem_cons]
    tauto

theorem mem_sortKD {α β : Type} [LinearOrder β] (k : α → β) (x : α)
    (l : List α) : x ∈ sortKD k l ↔ x ∈ l := by
  simp [sortKD, mem_sortKD_aux]

theorem chain'_insertKD {α β : Type} [LinearOrder β] (k : α → β) (a : α)
    {l : List α} (h : List.Chain' (fun x y => k y ≤ k x) l) :
    List.Chain' (fun x y => k y ≤ k x) (insertKD k a l) := by
  induction l with
  | nil => simp [insertKD]
  | cons b t ih =>
    by_cases hba : k b < k a
    · simp only [insertKD, if_pos hba]
      exact List.chain'_cons.mpr ⟨le_of_lt hba, h⟩
    · simp only [insertKD, if_neg hba]
      refine List.chain'_cons'.mpr ⟨?_, ih h.tail⟩
      intro y hy
      cases t with
      | nil =>
        simp [insertKD] at hy
        subst hy
        exact le_of_not_lt hba
      | cons c t' =>
        by_cases hca : k c < k a
        · simp [insertKD, hca] at hy
          subst hy
          exact le_of_not_lt hba
        · simp [insertKD, hca] at hy
          subst hy
          exact (List.chain'_cons.mp h).1

theorem chain'_sortKD_aux {α β : Type} [LinearOrder β] (k : α → β)
    (l : List α) {acc : List α}
    (h : List.Chain' (fun x y => k y ≤ k x) acc) :
    List.Chain' (fun x y => k y ≤ k x)
      (l.foldl (fun acc y => insertKD k y acc) acc) := by
  induction l generalizing acc with
  | nil => exact h
  | cons b t ih => exact ih (chain'_insertKD k b h)

theorem chain'_sortKD {α β : Type} [LinearOrder β] (k : α → β) (l : List α) :
    List.Chain' (fun x y => k y ≤ k x) (sortKD k l) :=
  chain'_sortKD_aux k l List.chain'_nil

theorem pyRound_nonneg {q : ℚ} (n : ℕ) (hq : 0 ≤ q) : 0 ≤ pyRound q n := by
  unfold pyRound
  dsimp only
  have hm : (0 : ℚ) < (10 : ℚ) ^ n := by positivity
  have hf : (0 : ℚ) ≤ (⌊q * (10 : ℚ) ^ n⌋ : ℚ) := by
    exact_mod_cast Int.floor_nonneg.mpr (mul_nonneg hq hm.le)
  split_ifs
  · exact div_nonneg hf hm.le
  · exact div_nonneg (by linarith) hm.le
  · exact div_nonneg hf hm.le
  · exact div_nonneg (by linarith) hm.le

theorem pyRound_le_one {q : ℚ} (n : ℕ) (hq : q ≤ 1) : pyRound q n ≤ 1 := by
  unfold pyRound
  dsimp only
  have hm : (0 : ℚ) < (10 : ℚ) ^ n := by positivity
  have hmz : ((10 : ℤ) ^ n : ℚ) = (10 : ℚ) ^ n := by push_cast; ring
  have hqm : q * (10 : ℚ) ^ n ≤ (10 : ℚ) ^ n := by
    calc q * (10 : ℚ) ^ n ≤ 1 * (10 : ℚ) ^ n := by
          exact mul_le_mul_of_nonneg_right hq hm.le
      _ = (10 : ℚ) ^ n := one_mul _
  have hfle : (⌊q * (10 : ℚ) ^ n⌋ : ℚ) ≤ q * (10 : ℚ) ^ n := Int.floor_le _
  have hsucc : ¬ q * (10 : ℚ) ^ n - (⌊q * (10 : ℚ) ^ n⌋ : ℚ) < 1 / 2 →
      (⌊q * (10 : ℚ) ^ n⌋ : ℚ) + 1 ≤ (10 : ℚ) ^ n := by
    intro hr
    have h1 : (⌊q * (10 : ℚ) ^ n⌋ : ℚ) < (10 : ℚ) ^ n := by linarith
    have h2 : ⌊q * (10 : ℚ) ^ n⌋ < (10 : ℤ) ^ n := by
      rw [← hmz] at h1
      exact_mod_cast h1
    have h3 : ⌊q * (10 : ℚ) ^ n⌋ + 1 ≤ (10 : ℤ) ^ n := h2
    calc (⌊q * (10 : ℚ) ^ n⌋ : ℚ) + 1 = ((⌊q * (10 : ℚ) ^ n⌋ + 1 : ℤ) : ℚ) := by push_cast; ring
      _ ≤ ((10 : ℤ) ^ n : ℚ) := by exact_mod_cast h3
      _ = (10 : ℚ) ^ n := hmz
  split_ifs with h1 h2 h3
  · rw [div_le_one hm]; linarith
  · rw [div_le_one hm]; exact hsucc h1
  · rw [div_le_one hm]; linarith
  · rw [div_le_one hm]; exact hsucc h1

theorem ascii_all {P : Char → Bool}
    (hall : (List.range 128).all (fun n => P (Char.ofNat n)) = true)
    {c : Char} (hc : c.toNat < 128) : P c = true := by
  have h := List.all_eq_true.mp hall c.toNat (List.mem_range.mpr hc)
  rwa [Char.ofNat_toNat] at h

theorem mem_collapseGo {c : Char} :
    ∀ (l : List Char) (b : Bool), c ∈ collapseGo b l →
      (c ∈ l ∧ pyIsSpaceChar c = false) ∨ c = ' '
  | [], b => by simp [collapseGo]
  | d :: rest, b => by
    intro hc
    by_cases hd : pyIsSpaceChar d
    · cases b with
      | true =>
        simp only [collapseGo, hd, if_pos, if_true] at hc
        rcases mem_collapseGo rest true hc with ⟨h1, h2⟩ | h
        · exact Or.inl ⟨List.mem_cons_of_mem _ h1, h2⟩
        · exact Or.inr h
      | false =>
        simp only [collapseGo, hd, if_pos, if_false] at hc
        rcases List.mem_cons.mp hc with h | h
        · exact Or.inr h
        · rcases mem_collapseGo rest true h with ⟨h1, h2⟩ | h'
          · exact Or.inl ⟨List.mem_cons_of_mem _ h1, h2⟩
          · exact Or.inr h'
    · simp only [collapseGo, hd, if_neg, Bool.false_eq_true, if_false] at hc
      rcases List.mem_cons.mp hc with h | h
      · subst h
        exact Or.inl ⟨List.mem_cons_self _ _, by simpa using hd⟩
      · rcases mem_collapseGo rest false h with ⟨h1, h2⟩ | h'
        · exact Or.inl ⟨List.mem_cons_of_mem _ h1, h2⟩
        · exact Or.inr h'

theorem chain'_collapseGo :
    ∀ l : List Char,
      (∀ b, List.Chain' (fun a b => ¬(pyIsSpaceChar a = true ∧ pyIsSpaceChar b = true))
        (collapseGo b l)) ∧
      (∀ c, (collapseGo true l).head? = some c → pyIsSpaceChar c = false)
  | [] => by simp [collapseGo]
  | d :: rest => by
    obtain ⟨ihChain, ihHead⟩ := chain'_collapseGo rest
    by_cases hd : pyIsSpaceChar d
    · refine ⟨?_, ?_⟩
      · intro b
        cases b with
        | true => simpa [collapseGo, hd] using ihChain true
        | false =>
          simp only [collapseGo, hd, if_pos, if_false]
          refine List.chain'_cons'.mpr ⟨?_, ihChain true⟩
          intro y hy
          have := ihHead y hy
          simp [this]
      · intro c hc
        simp only [collapseGo, hd, if_pos, if_true] at hc
        exact ihHead c hc
    · refine ⟨?_, ?_⟩
      · intro b
        cases b with
        | true =>
          simp only [collapseGo, hd, if_neg, Bool.false_eq_true, if_false]
          refine List.chain'_cons'.mpr ⟨?_, ihChain false⟩
          intro y _
          simp [hd]
        | false =>
          simp only [collapseGo, hd, if_neg, Bool.false_eq_true, if_false]
          refine List.chain'_cons'.mpr ⟨?_, ihChain false⟩
          intro y _
          simp [hd]
      · intro c hc
        simp only [collapseGo, hd, if_neg, Bool.false_eq_true, if_false,
          List.head?_cons, Option.some.injEq] at hc
        subst hc
        simpa using hd

theorem head?_dropWhile {p : Char → Bool} :
    ∀ (l : List Char) (c : Char), (l.dropWhile p).head? = some c → p c = false
  | [], c => by simp
  | d :: rest, c => by
    intro hc
    by_cases hd : p d
    · rw [List.dropWhile_cons_of_pos hd] at hc
      exact head?_dropWhile rest c hc
    · rw [List.dropWhile_cons_of_neg hd] at hc
      simp only [List.head?_cons, Option.some.injEq] at hc
      subst hc
      simpa using hd

theorem mem_stripChars {c : Char} {l : List Char} (h : c ∈ stripChars l) : c ∈ l := by
  unfold stripChars at h
  rw [List.mem_reverse] at h
  have h2 := (List.dropWhile_suffix pyIsSpaceChar).subset h
  rw [List.mem_reverse] at h2
  exact (List.dropWhile_suffix pyIsSpaceChar).subset h2

theorem chain'_stripChars {l : List Char}
    (h : List.Chain' (fun a b => ¬(pyIsSpaceChar a = true ∧ pyIsSpaceChar b = true)) l) :
    List.Chain' (fun a b => ¬(pyIsSpaceChar a = true ∧ pyIsSpaceChar b = true))
      (stripChars l) := by
  unfold stripChars
  have h1 := h.suffix (List.dropWhile_suffix pyIsSpaceChar)
  have h2 : List.Chain' (fun a b => ¬(pyIsSpaceChar a = true ∧ pyIsSpaceChar b = true))
      (l.dropWhile pyIsSpaceChar).reverse := by
    rw [List.chain'_reverse]
    exact h1.imp (fun h' => by unfold flip; tauto)
  have h3 := h2.suffix (List.dropWhile_suffix pyIsSpaceChar)
  rw [List.chain'_reverse]
  exact h3.imp (fun h' => by unfold flip; tauto)

theorem head?_stripChars {l : List Char} {c : Char}
    (h : (stripChars l).head? = some c) : pyIsSpaceChar c = false := by
  unfold stripChars at h
  rw [List.head?_reverse] at h
  rcases hsfx : (l.dropWhile pyIsSpaceChar).reverse.dropWhile pyIsSpaceChar with _ | ⟨d, t⟩
  · rw [hsfx] at h
    simp at h
  · have hne : (l.dropWhile pyIsSpaceChar).reverse.dropWhile pyIsSpaceChar ≠ [] := by
      rw [hsfx]; simp
    obtain ⟨pre, hpre⟩ := List.dropWhile_suffix (l := (l.dropWhile pyIsSpaceChar).reverse)
      pyIsSpaceChar
    have hlast : ((l.dropWhile pyIsSpaceChar).reverse.dropWhile pyIsSpaceChar).getLast? =
        (l.dropWhile pyIsSpaceChar).reverse.getLast? := by
      conv_rhs => rw [← hpre]
      exact (List.getLast?_append_of_ne_nil pre hne).symm
    rw [hlast, List.getLast?_reverse] at h
    exact head?_dropWhile l c h

theorem getLast?_stripChars {l : List Char} {c : Char}
    (h : (stripChars l).getLast? = some c) : pyIsSpaceChar c = false := by
  unfold stripChars at h
  rw [List.getLast?_reverse] at h
  exact head?_dropWhile _ c h

theorem word_not_space {c : Char} (hw : pyIsWordChar c = true) :
    pyIsSpaceChar c = false := by
  by_contra hs
  rw [Bool.not_eq_false] at hs
  unfold pyIsSpaceChar at hs
  simp only [Bool.or_eq_true, decide_eq_true_eq] at hs
  rcases hs with ((((h | h) | h) | h) | h) | h <;> subst h <;> exact absurd hw (by decide)

theorem pyNFKD_ascii {c : Char} (h : c.toNat < 128) : pyNFKD c = [c] := by
  have := ascii_all (P := fun c => pyNFKD c == [c]) (by decide) h
  simpa using this

theorem pyCombining_ascii {c : Char} (h : c.toNat < 128) : pyCombining c = false := by
  have := ascii_all (P := fun c => !pyCombining c) (by decide) h
  simpa using this

theorem pyLower_ascii_lt {c : Char} (h : c.toNat < 128) : (pyLower c).toNat < 128 := by
  have := ascii_all (P := fun c => decide ((pyLower c).toNat < 128)) (by decide) h
  simpa using this

theorem pyLower_idem_ascii {c : Char} (h : c.toNat < 128) :
    pyLower (pyLower c) = pyLower c := by
  have := ascii_all (P := fun c => pyLower (pyLower c) == pyLower c) (by decide) h
  simpa using this

theorem normalize_shape (s : List Char) :
    (∀ c ∈ normalize_text s, pyIsWordChar c = true ∨ c = ' ') ∧
    List.Chain' (fun a b => ¬(pyIsSpaceChar a = true ∧ pyIsSpaceChar b = true))
      (normalize_text s) ∧
    (∀ c, (normalize_text s).head? = some c → pyIsSpaceChar c = false) ∧
    (∀ c, (normalize_text s).getLast? = some c → pyIsSpaceChar c = false) := by
  unfold normalize_text
  dsimp only
  refine ⟨?_, ?_, ?_, ?_⟩
  · intro c hc
    have h1 := mem_stripChars hc
    rcases mem_collapseGo _ false h1 with ⟨h2, h3⟩ | h4
    · rcases List.mem_map.mp h2 with ⟨b, _, hb⟩
      by_cases hk : pyIsWordChar b || pyIsSpaceChar b
      · rw [if_pos hk] at hb
        subst hb
        rcases Bool.or_eq_true_iff.mp hk with h | h
        · exact Or.inl h
        · rw [h] at h3
          cases h3
      · rw [if_neg hk] at hb
        exact Or.inr hb.symm
    · exact Or.inr h4
  · exact chain'_stripChars ((chain'_collapseGo _).1 false)
  · intro c hc
    exact head?_stripChars hc
  · intro c hc
    exact getLast?_stripChars hc

theorem normalize_ascii_fix {s : List Char} (hs : ∀ a ∈ s, a.toNat < 128) :
    ∀ c ∈ normalize_text s, c.toNat < 128 ∧ pyLower c = c := by
  intro c hc
  unfold normalize_text at hc
  dsimp only at hc
  have h1 := mem_stripChars hc
  rcases mem_collapseGo _ false h1 with ⟨h2, _⟩ | h4
  · rcases List.mem_map.mp h2 with ⟨b, hb2, hb⟩
    have hbfacts : b.toNat < 128 ∧ pyLower b = b := by
      have hb3 := List.mem_filter.mp hb2
      rcases List.mem_flatMap.mp hb3.1 with ⟨a', ha', hba'⟩
      rcases List.mem_map.mp ha' with ⟨a, ha, haa'⟩
      have haA : a.toNat < 128 := hs a ha
      have ha'A : a'.toNat < 128 := by
        rw [← haa']
        exact pyLower_ascii_lt haA
      rw [pyNFKD_ascii ha'A] at hba'
      simp only [List.mem_singleton] at hba'
      subst hba'
      refine ⟨ha'A, ?_⟩
      rw [← haa']
      exact pyLower_idem_ascii haA
    by_cases hk : pyIsWordChar b || pyIsSpaceChar b
    · rw [if_pos hk] at hb
      subst hb
      exact hbfacts
    · rw [if_neg hk] at hb
      subst hb
      exact ⟨by decide, by decide⟩
  · subst h4
    exact ⟨by decide, by decide⟩

theorem dropWhile_eq_self_of_head {p : Char → Bool} :
    ∀ l : List Char, (∀ c, l.head? = some c → p c = false) → l.dropWhile p = l
  | [] => fun _ => rfl
  | d :: t => fun h => by
    rw [List.dropWhile_cons, if_neg]
    simp [h d rfl]

theorem stripChars_fix {l : List Char}
    (hh : ∀ c, l.head? = some c → pyIsSpaceChar c = false)
    (hl : ∀ c, l.getLast? = some c → pyIsSpaceChar c = false) :
    stripChars l = l := by
  unfold stripChars
  rw [dropWhile_eq_self_of_head l hh]
  rw [dropWhile_eq_self_of_head l.reverse
    (fun c hc => hl c (by rwa [List.head?_reverse] at hc))]
  exact List.reverse_reverse l

theorem flatMap_pyNFKD_fix :
    ∀ l : List Char, (∀ c ∈ l, pyNFKD c = [c]) → l.flatMap pyNFKD = l
  | [] => fun _ => rfl
  | a :: t => fun h => by
    rw [List.flatMap_cons, h a (List.mem_cons_self a t),
      flatMap_pyNFKD_fix t (fun c hc => h c (List.mem_cons_of_mem _ hc))]
    rfl

theorem collapseGo_fix :
    ∀ l : List Char, (∀ c ∈ l, pyIsSpaceChar c = true → c = ' ') →
      List.Chain' (fun a b => ¬(pyIsSpaceChar a = true ∧ pyIsSpaceChar b = true)) l →
      collapseGo false l = l ∧
        ((∀ c, l.head? = some c → pyIsSpaceChar c = false) → collapseGo true l = l)
  | [] => fun _ _ => ⟨rfl, fun _ => rfl⟩
  | d :: rest => by
    intro hsp hch
    obtain ⟨ih1, ih2⟩ := collapseGo_fix rest
      (fun c hc h => hsp c (List.mem_cons_of_mem _ hc) h) hch.tail
    by_cases hd : pyIsSpaceChar d
    · have hd' : d = ' ' := hsp d (List.mem_cons_self d rest) hd
      have hrest : collapseGo true rest = rest := by
        apply ih2
        intro c hc
        cases rest with
        | nil => simp at hc
        | cons e t =>
          simp only [List.head?_cons, Option.some.injEq] at hc
          subst hc
          have hrel := (List.chain'_cons.mp hch).1
          by_contra hcs
          rw [Bool.not_eq_false] at hcs
          exact hrel ⟨hd, hcs⟩
      refine ⟨?_, ?_⟩
      · simp only [collapseGo, hd, if_true, Bool.false_eq_true, if_false]
        rw [hrest, hd']
      · intro hhead
        exact absurd (hhead d rfl) (by simp [hd])
    · refine ⟨?_, ?_⟩
      · simp only [collapseGo, hd, Bool.false_eq_true, if_false]
        rw [ih1]
      · intro _
        simp only [collapseGo, hd, Bool.false_eq_true, if_false]
        rw [ih1]

/-- C4: `normalize_text` applies lower-casing, NFKD with stripping of
combining marks, replacement of non-word non-whitespace characters by a
space, whitespace collapsing and trimming, in that order (the definition),
and its output consists of word characters — alphanumeric or underscore, the
Python `\w` class — and single separating spaces, with no leading or
trailing space; the empty input yields the empty output.  (Amended from
"alphanumeric": `\w` also keeps the underscore, see the counterexample.) -/
theorem C4_normalize_output_shape (s : List Char) :
    (∀ c ∈ normalize_text s, pyIsWordChar c = true ∨ c = ' ') ∧
    List.Chain' (fun a b => ¬(a = ' ' ∧ b = ' ')) (normalize_text s) ∧
    (normalize_text s).head? ≠ some ' ' ∧
    (normalize_text s).getLast? ≠ some ' ' ∧
    normalize_text [] = [] := by
  obtain ⟨hmem, hch, hhead, hlast⟩ := normalize_shape s
  refine ⟨hmem, ?_, ?_, ?_, rfl⟩
  · refine hch.imp ?_
    intro a b hr hab
    rcases hab with ⟨ha, hb⟩
    subst ha
    subst hb
    exact hr ⟨by decide, by decide⟩
  · intro h
    exact absurd (hhead ' ' h) (by decide)
  · intro h
    exact absurd (hlast ' ' h) (by decide)

/-- C4 counterexample: on input "a_b" the output still contains an
underscore, which is neither alphanumeric nor a space, so the claim's
"contains only alphanumeric characters and single spaces" is false (Python's
`\w` keeps underscores). -/
theorem C4_counterexample :
    normalize_text ['a', '_', 'b'] = ['a', '_', 'b'] ∧
    ¬(∀ c ∈ normalize_text ['a', '_', 'b'], (c.isAlphanum = true ∨ c = ' ')) := by
  constructor
  · decide
  · decide

/-- C5 (amended): `normalize_text` is idempotent on every input made of ASCII
characters.  On full Unicode the claim fails — see the counterexample — since
an NFKD compatibility decomposition can introduce uppercase letters after the
lower-casing step already ran. -/
theorem C5_normalize_idempotent_ascii (s : List Char)
    (h : ∀ c ∈ s, c.toNat < 128) :
    normalize_text (normalize_text s) = normalize_text s := by
  obtain ⟨hmem, hch, hhead, hlast⟩ := normalize_shape s
  have hfix := normalize_ascii_fix h
  set y := normalize_text s with hy
  unfold normalize_text
  dsimp only
  have h1 : y.map pyLower = y := by
    rw [List.map_congr_left (fun a ha => (hfix a ha).2)]
    exact List.map_id y
  rw [h1]
  rw [flatMap_pyNFKD_fix y (fun c hc => pyNFKD_ascii (hfix c hc).1)]
  rw [List.filter_eq_self.mpr (fun a ha => by rw [pyCombining_ascii (hfix a ha).1]; rfl)]
  have h4 : y.map (fun c => if pyIsWordChar c || pyIsSpaceChar c then c else ' ') = y := by
    have hcong : ∀ a ∈ y, (if pyIsWordChar a || pyIsSpaceChar a then a else ' ') = a := by
      intro a ha
      rcases hmem a ha with hw | hsp
      · rw [if_pos (by simp [hw])]
      · subst hsp
        rw [if_pos (by decide)]
    have hmc := List.map_congr_left (l := y)
      (f := fun c => if pyIsWordChar c || pyIsSpaceChar c then c else ' ')
      (g := id)
      (fun a ha => by dsimp only; exact hcong a ha)
    rw [hmc]
    exact List.map_id y
  rw [h4]
  have hsp' : ∀ c ∈ y, pyIsSpaceChar c = true → c = ' ' := by
    intro c hc hspc
    rcases hmem c hc with hw | h'
    · exact absurd hspc (by simp [word_not_space hw])
    · exact h'
  obtain ⟨hc1, _⟩ := collapseGo_fix y hsp' hch
  have : collapseSpaces y = y := hc1
  rw [this]
  exact stripChars_fix hhead hlast

/-- C5 witness: idempotence at the concrete ASCII input "Ab  c_1  d". -/
theorem C5_witness :
    normalize_text (normalize_text "Ab  c_1  d".data) =
      normalize_text "Ab  c_1  d".data :=
  C5_normalize_idempotent_ascii "Ab  c_1  d".data (by decide)

/-- C5 counterexample: U+213B FACSIMILE SIGN has no lowercase form, and its
NFKD decomposition is the uppercase "FAX", so one pass yields "FAX" and a
second pass lowers it to "fax": `normalize` is not idempotent on all text
inputs. -/
theorem C5_counterexample :
    normalize_text (normalize_text ['℻']) ≠ normalize_text ['℻'] := by
  decide

theorem if_false_else {b M : Bool} (h : M = false) :
    (if b = true then false else M) = false := by
  cases b <;> simp [h]

/-- C1: every returned search result is the entry of some retrieved candidate
with `relevance_score = round(max(0, 1 - distance), 3)`; when every retrieved
distance is non-negative every returned score lies in [0, 1]; and the
returned list is non-increasing in `relevance_score`. -/
theorem C1_search_scoring_and_order (cands : List Candidate) (filters : Option Filters) :
    (∀ r ∈ processSearchResults cands filters,
      ∃ c ∈ cands, r = mkEntry c ∧
        r.relevance_score = pyRound (max 0 (1 - c.distance)) 3) ∧
    ((∀ c ∈ cands, 0 ≤ c.distance) →
      ∀ r ∈ processSearchResults cands filters,
        0 ≤ r.relevance_score ∧ r.relevance_score ≤ 1) ∧
    List.Chain' (fun a b => b.relevance_score ≤ a.relevance_score)
      (processSearchResults cands filters) := by
  have hmem : ∀ r ∈ processSearchResults cands filters, ∃ c ∈ cands, r = mkEntry c := by
    intro r hr
    unfold processSearchResults at hr
    dsimp only at hr
    rw [mem_sortKD] at hr
    rcases List.mem_filterMap.mp hr with ⟨c, hc, hfc⟩
    refine ⟨c, hc, ?_⟩
    rcases filters with _ | f
    · simp only [] at hfc
      exact (Option.some.inj hfc).symm
    · simp only [] at hfc
      by_cases hp : passesPostFilters c.metadata f
      · rw [if_pos hp] at hfc
        exact (Option.some.inj hfc).symm
      · rw [if_neg hp] at hfc
        cases hfc
  refine ⟨?_, ?_, ?_⟩
  · intro r hr
    rcases hmem r hr with ⟨c, hc, hrc⟩
    refine ⟨c, hc, hrc, ?_⟩
    rw [hrc]
    exact rfl
  · intro hd r hr
    rcases hmem r hr with ⟨c, hc, hrc⟩
    have hrs : r.relevance_score = pyRound (max 0 (1 - c.distance)) 3 := by
      rw [hrc]
      exact rfl
    have h0 : (0 : ℚ) ≤ max 0 (1 - c.distance) := le_max_left _ _
    have h1 : max 0 (1 - c.distance) ≤ 1 := by
      apply max_le
      · norm_num
      · have := hd c hc
        linarith
    rw [hrs]
    exact ⟨pyRound_nonneg 3 h0, pyRound_le_one 3 h1⟩
  · unfold processSearchResults
    dsimp only
    exact chain'_sortKD _ _

section

set_option allowUnsafeReducibility true

attribute [local semireducible] Rat.inv Rat.div Rat.normalize Rat.mul Rat.add Rat.sub Rat.neg Rat.blt Nat.gcd

/-- C2 counterexample: with the `min_if_sjr` filter active, a candidate whose
`if_sjr` key is missing bypasses the impact-factor check and is returned —
the claim says it is excluded. -/
theorem C2_counterexample :
    ({ profesor := some "P" } : Metadata).if_sjr = none ∧
    passesPostFilters { profesor := some "P" } { min_if_sjr := some 5 } = true ∧
    (processSearchResults [⟨"id1", { profesor := some "P" }, "doc", 1/2⟩]
        (some { min_if_sjr := some 5 })).map (fun r => r.id) = ["id1"] := by
  refine ⟨rfl, by decide, by decide⟩

end

/-- C2 (amended): when `minImpactFactor` is active, a candidate whose
`if_sjr` is present, non-empty and non-numeric is excluded; a candidate whose
`if_sjr` is missing or empty bypasses the impact-factor filter entirely — the
post-filter outcome is the same as if no `min_if_sjr` filter were given, so
only the other filters can still exclude it. -/
theorem C2_min_impact_filter (m : Metadata) (f : Filters) (v : ℚ)
    (hv : f.min_if_sjr = some v) :
    (truthy m.if_sjr = true → pyFloat (m.if_sjr.getD "") = none →
      passesPostFilters m f = false) ∧
    (truthy m.if_sjr = false →
      passesPostFilters m f = passesPostFilters m { f with min_if_sjr := none }) := by
  constructor
  · intro ht hp
    unfold passesPostFilters
    dsimp only
    apply if_false_else
    simp [hv, ht, hp]
  · intro ht
    unfold passesPostFilters
    dsimp only
    simp [hv, ht]

/-- C2 witness: a present non-numeric impact factor is excluded, and for an
empty one the filter `min_if_sjr = 5` has no effect at all. -/
theorem C2_witness :
    passesPostFilters { if_sjr := some "N/A" } { min_if_sjr := some 5 } = false ∧
    passesPostFilters { if_sjr := some "" } { min_if_sjr := some 5 } =
      passesPostFilters { if_sjr := some "" } { min_if_sjr := none } := by
  constructor
  · exact (C2_min_impact_filter _ _ 5 rfl).1 (by decide) (by decide)
  · exact (C2_min_impact_filter { if_sjr := some "" } { min_if_sjr := some 5 }
      5 rfl).2 (by decide)

section

set_option allowUnsafeReducibility true

attribute [local semireducible] Rat.inv Rat.div Rat.normalize Rat.mul Rat.add Rat.sub Rat.neg Rat.blt Nat.gcd

/-- C3 counterexample: `calculate_compatibility_score` has no clamping floor,
so a negative `relevance_score` input produces a negative score — the claim
says the result is in [0, 1] for any input values. -/
theorem C3_counterexample :
    calculate_compatibility_score
      { id := "", relevance_score := -1, distance := 0, content := "",
        metadata := {}, profesor := "", titulo := "", tipo := "",
        tipo_produccion := "", fecha := "", categorias := "", fuente := "",
        if_sjr := "", q_sjr := "" } {} < 0 := by
  decide

end

/-- C3 (amended): the compatibility score never exceeds 1.0 for any inputs
(the sum is capped by `min(score, 1.0)`); and whenever the result's
`relevance_score` is non-negative and its `if_sjr`, when it parses as a
number, is non-negative, the score is also non-negative — hence in [0, 1] —
since all terms are then non-negative. -/
theorem C3_compat_bounds (result : ResultEntry) (profile : UserProfile) :
    calculate_compatibility_score result profile ≤ 1 ∧
    (0 ≤ result.relevance_score →
      (match pyFloat result.if_sjr with
        | some v => decide (0 ≤ v)
        | none => true) = true →
      0 ≤ calculate_compatibility_score result profile) := by
  constructor
  · unfold calculate_compatibility_score
    dsimp only
    exact min_le_right _ _
  · intro hrel hif
    have hb : 0 ≤ result.relevance_score * (4 / 10) := mul_nonneg hrel (by norm_num)
    unfold calculate_compatibility_score
    dsimp only
    have h3 : (0 : ℚ) ≤ 3 / 10 := by norm_num
    have h2 : (0 : ℚ) ≤ 2 / 10 := by norm_num
    rcases hpf : pyFloat result.if_sjr with _ | v
    · simp only [hpf]
      split_ifs
      all_goals refine le_min ?_ (by norm_num)
      all_goals first
        | exact hb
        | exact add_nonneg hb h3
        | exact add_nonneg hb h2
        | exact add_nonneg (add_nonneg hb h3) h2
    · rw [hpf] at hif
      simp only [decide_eq_true_eq] at hif
      have hmin : 0 ≤ min (v / 10) (1 / 10 : ℚ) :=
        le_min (div_nonneg hif (by norm_num)) (by norm_num)
      simp only [hpf]
      split_ifs
      all_goals refine le_min ?_ (by norm_num)
      all_goals first
        | exact hb
        | exact add_nonneg hb h3
        | exact add_nonneg hb h2
        | exact add_nonneg (add_nonneg hb h3) h2
        | exact add_nonneg hb hmin
        | exact add_nonneg (add_nonneg hb h3) hmin
        | exact add_nonneg (add_nonneg hb h2) hmin
        | exact add_nonneg (add_nonneg (add_nonneg hb h3) h2) hmin

section

set_option allowUnsafeReducibility true

attribute [local semireducible] Rat.inv Rat.div Rat.normalize Rat.mul Rat.add Rat.sub Rat.neg Rat.blt Nat.gcd

/-- C3 witness: the [0, 1] bounds at a concrete result with relevance 1/2
and impact factor "3.5". -/
theorem C3_witness :
    0 ≤ calculate_compatibility_score
        { id := "", relevance_score := 1/2, distance := 0, content := "",
          metadata := {}, profesor := "", titulo := "", tipo := "",
          tipo_produccion := "", fecha := "", categorias := "ciencias",
          fuente := "", if_sjr := "3.5", q_sjr := "" } {} ∧
      calculate_compatibility_score
        { id := "", relevance_score := 1/2, distance := 0, content := "",
          metadata := {}, profesor := "", titulo := "", tipo := "",
          tipo_produccion := "", fecha := "", categorias := "ciencias",
          fuente := "", if_sjr := "3.5", q_sjr := "" } {} ≤ 1 :=
  ⟨(C3_compat_bounds _ _).2 (by decide) (by decide), (C3_compat_bounds _ _).1⟩

end

section

set_option allowUnsafeReducibility true

attribute [local semireducible] Rat.inv Rat.div Rat.normalize Rat.mul Rat.add Rat.sub Rat.neg Rat.blt Nat.gcd

theorem pyRound_3_10_2 : pyRound (3 / 10) 2 = 3 / 10 := by decide

theorem pyRound_1_2 : pyRound 1 2 = 1 := by decide

end

/-- C6: `get_database_stats` returns the cached value unchanged — whatever
the corpus now holds — whenever a cached value exists and is younger than
300 seconds; otherwise it recomputes from the corpus, stores the result with
the current timestamp and returns it; and an empty corpus yields the
well-formed all-zero/empty stats object, which the miss path caches like any
other result. -/
theorem C6_stats_cache_ttl (now : ℚ) (corpus : List Metadata) (st : StatsCacheState) :
    (∀ s, st.cache = some s → now - st.time < 300 →
      get_database_stats now corpus st = (s, st)) ∧
    ((st.cache = none ∨ ¬(now - st.time < 300)) →
      get_database_stats now corpus st =
        (computeStats corpus, ⟨some (computeStats corpus), now⟩)) ∧
    computeStats [] = emptyStats ∧
    emptyStats.total_documents = 0 ∧
    emptyStats.total_profesores = 0 ∧
    emptyStats.tipos_produccion = [] ∧
    emptyStats.anios_cubiertos = [] ∧
    emptyStats.anios_publicacion = [] ∧
    emptyStats.categorias_populares = [] := by
  obtain ⟨c0, t0⟩ := st
  refine ⟨?_, ?_, rfl, rfl, rfl, rfl, rfl, rfl, rfl⟩
  · intro s hs hfresh
    cases c0 with
    | none => simp at hs
    | some s0 =>
      have hss : s0 = s := by simpa using hs
      subst hss
      unfold get_database_stats
      dsimp only at hfresh ⊢
      rw [if_pos hfresh]
  · intro hmiss
    cases c0 with
    | none => rfl
    | some s0 =>
      rcases hmiss with h | h
      · simp at h
      · unfold get_database_stats
        dsimp only at h ⊢
        rw [if_neg h]

/-- C7: every availability entry's score is
`round(1 - (recent / maxRecent) * 0.7, 2)` with `maxRecent` the corpus-wide
maximum recent count floored at 1; an entry whose recent count equals
`maxRecent` scores 0.3; an entry with zero recent publications scores 1.0;
and the ranking is non-increasing in `availability_score`. -/
theorem C7_availability_scores (currentYear : ℤ) (corpus : List Metadata) :
    (∀ e ∈ get_availability_ranking currentYear corpus,
      e.availability_score =
        pyRound (1 - ((e.recent_publications : ℚ) /
          (maxRecentOf (buildProfessors currentYear corpus) : ℚ)) * (7 / 10)) 2) ∧
    (∀ e ∈ get_availability_ranking currentYear corpus,
      e.recent_publications = maxRecentOf (buildProfessors currentYear corpus) →
        e.availability_score = 3 / 10) ∧
    (∀ e ∈ get_availability_ranking currentYear corpus,
      e.recent_publications = 0 → e.availability_score = 1) ∧
    List.Chain' (fun a b => b.availability_score ≤ a.availability_score)
      (get_availability_ranking currentYear corpus) := by
  have hone : 1 ≤ maxRecentOf (buildProfessors currentYear corpus) := by
    unfold maxRecentOf
    dsimp only
    split_ifs with h0
    · exact le_refl 1
    · omega
  have hne : ((maxRecentOf (buildProfessors currentYear corpus) : ℕ) : ℚ) ≠ 0 := by
    have : maxRecentOf (buildProfessors currentYear corpus) ≠ 0 := by omega
    exact_mod_cast this
  have hmem : ∀ e ∈ get_availability_ranking currentYear corpus,
      ∃ p ∈ buildProfessors currentYear corpus,
        e = mkAvailEntry (maxRecentOf (buildProfessors currentYear corpus)) p := by
    intro e he
    unfold get_availability_ranking at he
    dsimp only at he
    rw [mem_sortKD] at he
    rcases List.mem_map.mp he with ⟨p, hp, hpe⟩
    exact ⟨p, hp, hpe.symm⟩
  refine ⟨?_, ?_, ?_, ?_⟩
  · intro e he
    rcases hmem e he with ⟨p, _, he2⟩
    rw [he2]
    exact rfl
  · intro e he hrec
    rcases hmem e he with ⟨p, _, he2⟩
    subst he2
    have hr' : p.recent_publications =
        maxRecentOf (buildProfessors currentYear corpus) := hrec
    show pyRound (1 - ((p.recent_publications : ℚ) /
      (maxRecentOf (buildProfessors currentYear corpus) : ℚ)) * (7 / 10)) 2 = 3 / 10
    rw [hr', div_self hne]
    have harith : (1 : ℚ) - 1 * (7 / 10) = 3 / 10 := by norm_num
    rw [harith, pyRound_3_10_2]
  · intro e he hrec
    rcases hmem e he with ⟨p, _, he2⟩
    subst he2
    have hr' : p.recent_publications = 0 := hrec
    show pyRound (1 - ((p.recent_publications : ℚ) /
      (maxRecentOf (buildProfessors currentYear corpus) : ℚ)) * (7 / 10)) 2 = 1
    rw [hr']
    have harith : (1 : ℚ) - ((0 : ℕ) : ℚ) /
        (maxRecentOf (buildProfessors currentYear corpus) : ℚ) * (7 / 10) = 1 := by
      push_cast
      rw [zero_div]
      ring
    rw [harith, pyRound_1_2]
  · unfold get_availability_ranking
    dsimp only
    exact chain'_sortKD _ _

/-- C8: evaluating `get_profesor_profile` on a single record whose `fecha` is
the sentinel "-" shows that the sentinel DOES contribute the element "-" to
`años_activo` (string slicing never raises, so the dead `try/except` guard
does not filter it), and "-" is not a 4-digit year string — the code
contradicts the spec's stated intent here. -/
theorem C8_active_years_sentinel_bug :
    ((get_profesor_profile [⟨"id1", { profesor := some "X", fecha := some "-" }, "doc"⟩]
        "X").map (fun p => p.estadisticas.anios_activo)) = some ["-"] ∧
    isYear4 "-" = false := by
  constructor
  · decide
  · decide

/-- C9: `get_profesor_profile` returns `none` exactly when the exact-match
lookup yields zero records, and (being a total function) never raises for
any input name. -/
theorem C9_profile_none_iff (corpus : List Doc) (name : String) :
    get_profesor_profile corpus name = none ↔
      corpus.filter (fun d => d.metadata.profesor = some name) = [] := by
  unfold get_profesor_profile
  dsimp only
  split_ifs with h
  · simp only [List.isEmpty_iff] at h
    simp [h]
  · simp only [List.isEmpty_iff] at h
    simp [h]

/-- C10: when a date-range filter is active, a candidate whose `fecha` is
missing or empty is never compared with the bounds — the post-filter result
is the same as if no date range were given — and (with no
`min_if_sjr` filter present) such a candidate appears in the returned
results; only records with a truthy `fecha` can be excluded by the date
range. -/
theorem C10_empty_date_passes (filters : Filters) (r : DateRange)
    (hr : filters.fecha_range = some r) :
    (∀ m : Metadata, truthy m.fecha = false →
      passesPostFilters m filters =
        passesPostFilters m { filters with fecha_range := none }) ∧
    (filters.min_if_sjr = none →
      ∀ (cands : List Candidate), ∀ c ∈ cands, truthy c.metadata.fecha = false →
        mkEntry c ∈ processSearchResults cands (some filters)) := by
  constructor
  · intro m hm
    unfold passesPostFilters
    dsimp only
    simp [hr, hm]
  · intro hif cands c hc hcf
    have hp : passesPostFilters c.metadata filters = true := by
      unfold passesPostFilters
      dsimp only
      simp [hr, hcf, hif]
    unfold processSearchResults
    dsimp only
    rw [mem_sortKD]
    refine List.mem_filterMap.mpr ⟨c, hc, ?_⟩
    simp [hp]

/-- C10 witness: a candidate with no `fecha` field survives an active date
range `[2020-01-01, ·]` and is returned. -/
theorem C10_witness :
    mkEntry ⟨"id1", { profesor := some "P" }, "doc", 1/2⟩ ∈
      processSearchResults [⟨"id1", { profesor := some "P" }, "doc", 1/2⟩]
        (some { fecha_range := some { inicio := some "2020-01-01" } }) :=
  (C10_empty_date_passes { fecha_range := some { inicio := some "2020-01-01" } }
      { inicio := some "2020-01-01" } rfl).2 rfl
    [⟨"id1", { profesor := some "P" }, "doc", 1/2⟩]
    ⟨"id1", { profesor := some "P" }, "doc", 1/2⟩
    (List.mem_singleton.mpr rfl) (by decide)
